import Mathlib

/-!
# Verification of the bicycle-counter statistics core (`app_v2.py`)

Shallow embedding of the `TimeRange` hierarchy, the `DailyCountHistory`
aggregator, the ranking engine (`human_rank_in_list`), fact extraction,
raw-data ingestion (`EcoCounterDownloader`) and the `Dictionary` loader,
together with proofs settling the specification claims.

Python `datetime` values are modelled by the `Instant` structure below;
Python `int` is modelled by `ℤ`; Python `dict` built from key/value pairs
is modelled by an association list where the *last* binding of a key wins
(the semantics of `dict(pairs)`); functions that can raise are modelled
with `Option`/`Except`.
-/

namespace App

/-- A `datetime.datetime` value: year, month, day and time-of-day fields. -/
structure Instant where
  year : ℕ
  month : ℕ
  day : ℕ
  hour : ℕ
  minute : ℕ
  second : ℕ
deriving DecidableEq, Repr

/-- Gregorian leap-year rule, as implemented by `datetime`. -/
def isLeap (y : ℕ) : Bool :=
  (y % 4 == 0 && y % 100 != 0) || y % 400 == 0

/-- Number of days of month `m` in year `y` (0 for out-of-range months). -/
def daysInMonth (y m : ℕ) : ℕ :=
  if m = 1 then 31
  else if m = 2 then (if isLeap y then 29 else 28)
  else if m = 3 then 31
  else if m = 4 then 30
  else if m = 5 then 31
  else if m = 6 then 30
  else if m = 7 then 31
  else if m = 8 then 31
  else if m = 9 then 30
  else if m = 10 then 31
  else if m = 11 then 30
  else if m = 12 then 31
  else 0

/-- The calendar-date component `(y, m, d)` mapped injectively and
monotonically (for valid dates) into `ℕ`; field bounds `m ≤ 12 < 13` and
`d ≤ 31 < 32` make this agree with lexicographic `datetime` order. -/
def dateSerial (y m d : ℕ) : ℕ :=
  (y * 13 + m) * 32 + d

/-- An `Instant` mapped injectively and monotonically (for valid instants)
into `ℕ`; comparisons of `datetime` values are modelled through `serial`. -/
def Instant.serial (i : Instant) : ℕ :=
  ((dateSerial i.year i.month i.day * 24 + i.hour) * 60 + i.minute) * 60 + i.second

/-- The range constraints `datetime` itself enforces on its fields. -/
def Instant.validb (i : Instant) : Bool :=
  1 ≤ i.year && i.year ≤ 9999 &&
  1 ≤ i.month && i.month ≤ 12 &&
  1 ≤ i.day && i.day ≤ daysInMonth i.year i.month &&
  i.hour ≤ 23 && i.minute ≤ 59 && i.second ≤ 59

/-- The calendar date following `(y, m, d)`. -/
def nextDate (y m d : ℕ) : ℕ × ℕ × ℕ :=
  if d + 1 ≤ daysInMonth y m then (y, m, d + 1)
  else if m + 1 ≤ 12 then (y, m + 1, 1)
  else (y + 1, 1, 1)

/-- Models `start_date + timedelta(days=1)`: one day later, time of day kept. -/
def nextDay (i : Instant) : Instant :=
  let p := nextDate i.year i.month i.day
  ⟨p.1, p.2.1, p.2.2, i.hour, i.minute, i.second⟩

/-- Models `start_date + timedelta(hours=1)`: one hour later, minute/second kept. -/
def addHour (i : Instant) : Instant :=
  if i.hour + 1 ≤ 23 then ⟨i.year, i.month, i.day, i.hour + 1, i.minute, i.second⟩
  else
    let p := nextDate i.year i.month i.day
    ⟨p.1, p.2.1, p.2.2, 0, i.minute, i.second⟩

/-- Days of year `y` in months strictly before month `m`. -/
def monthDaysBefore (y m : ℕ) : ℕ :=
  ((List.range (m - 1)).map (fun i => daysInMonth y (i + 1))).sum

/-- Models `datetime.toordinal()`: proleptic Gregorian ordinal, `0001-01-01 ↦ 1`. -/
def Instant.toOrdinal (i : Instant) : ℕ :=
  365 * (i.year - 1) + (i.year - 1) / 4 - (i.year - 1) / 100 + (i.year - 1) / 400
    + monthDaysBefore i.year i.month + i.day

/-- Models `datetime.weekday()`: Monday is `0`; ordinal 1 (0001-01-01) is a Monday. -/
def Instant.weekday (i : Instant) : ℕ :=
  (i.toOrdinal - 1) % 7

/-! ## The TimeRange hierarchy

Each Python subclass of `TimeRange` becomes a constructor.  A
`HistoricalTimeRange` overrides only `to_string`, so its `contains` is that
of `custom`.  `DayTimeRange`/`HourTimeRange` store `end_date = start +
1 unit` at construction; since the constructors validate alignment, the end
is derived here from the start. -/

inductive PyTimeRange where
  | month (start : Instant)
  | year (start : Instant)
  | custom (start_date end_date : Instant)
  | day (start : Instant)
  | hour (start : Instant)
deriving DecidableEq, Repr

/-- Models `TimeRange.contains`, per variant as written in the source. -/
def PyTimeRange.contains : PyTimeRange → Instant → Bool
  | .month s, d => s.year == d.year && s.month == d.month
  | .year s, d => s.year == d.year
  | .custom s e, d => decide (s.serial ≤ d.serial) && decide (d.serial < e.serial)
  | .day s, d => decide (s.serial ≤ d.serial) && decide (d.serial < (nextDay s).serial)
  | .hour s, d => decide (s.serial ≤ d.serial) && decide (d.serial < (addHour s).serial)

/-- Models `DayTimeRange.check`: passes iff it does not raise
`ValueError(f'Date {date} is not a day')`. -/
def dayCheckOk (d : Instant) : Bool :=
  !(d.hour != 0 || d.minute != 0 || d.second != 0)

/-- Models `MonthTimeRange.check`: `DayTimeRange.check(date)` then `date.day == 1`. -/
def monthCheckOk (d : Instant) : Bool :=
  dayCheckOk d && d.day == 1

/-- Models `YearTimeRange.check`: `MonthTimeRange.check(date)` then `date.month == 1`. -/
def yearCheckOk (d : Instant) : Bool :=
  monthCheckOk d && d.month == 1

/-- Models `HourTimeRange.check`: passes iff minute and second are zero. -/
def hourCheckOk (d : Instant) : Bool :=
  !(d.minute != 0 || d.second != 0)

/-- Models `DayTimeRange.month_time_range().start_date`:
`datetime(year, month, day=1)`. -/
def month_time_range (d : Instant) : Instant :=
  ⟨d.year, d.month, 1, 0, 0, 0⟩

/-- Models `DayTimeRange.year_time_range().start_date`: `datetime(year, 1, 1)`. -/
def year_time_range (d : Instant) : Instant :=
  ⟨d.year, 1, 1, 0, 0, 0⟩

/-! ## The ranking engine: `human_rank_in_list`

The sentinel-padded list `[math.inf, *sorted(list_, reverse=True), -math.inf]`
mixes floats and ints; its elements are modelled by `PyVal`.  The only
comparisons the source performs on it are `sorted_list[i] > quantity` and
`sorted_list[i] == quantity` against the integer `quantity`; in Python,
`math.inf > n` is `True`, `-math.inf > n` is `False`, and `±math.inf == n`
is `False` for every int `n`. -/

inductive PyVal where
  | inf
  | ninf
  | int (z : ℤ)
deriving DecidableEq, Repr

/-- Models `v > q` for a padded-list element `v` and an integer `q`. -/
def PyVal.gtInt : PyVal → ℤ → Bool
  | .inf, _ => true
  | .ninf, _ => false
  | .int z, q => decide (q < z)

/-- Models `v == q` for a padded-list element `v` and an integer `q`. -/
def PyVal.eqInt : PyVal → ℤ → Bool
  | .inf, _ => false
  | .ninf, _ => false
  | .int z, q => z == q

/-- The non-increasing order of the padded list: `inf` above every value,
`ninf` below every value, integers by `≥`.  Only used to state and prove
sortedness of the padded list. -/
def PyVal.ge : PyVal → PyVal → Prop
  | .inf, _ => True
  | _, .ninf => True
  | .int a, .int b => b ≤ a
  | .ninf, .inf => False
  | .ninf, .int _ => False
  | .int _, .inf => False

instance : DecidableRel PyVal.ge := by
  intro a b
  cases a <;> cases b <;> simp only [PyVal.ge] <;> infer_instance

/-- Models `sorted(list_, reverse=True)`: the list sorted in non-increasing order. -/
def pySortDesc (l : List ℤ) : List ℤ :=
  l.insertionSort (· ≥ ·)

/-- Models `[math.inf, *sorted(list_, reverse=True), -math.inf]`. -/
def padSorted (l : List ℤ) : List PyVal :=
  PyVal.inf :: ((pySortDesc l).map PyVal.int ++ [PyVal.ninf])

/-- The `while left < right - 1` binary-search loop of `human_rank_in_list`,
returning the final value of `right`. -/
def bsearch (l : List PyVal) (q : ℤ) (left right : ℕ) : ℕ :=
  if _h : left < right - 1 then
    let middle := (left + right) / 2
    if (l.getD middle .ninf).gtInt q then bsearch l q middle right
    else bsearch l q left middle
  else right
termination_by right - left
decreasing_by
  all_goals omega

/-- The tie-scanning `while` loop of `human_rank_in_list`: the number of
consecutive elements equal to `quantity` starting at index `i`. -/
def countTies (l : List PyVal) (q : ℤ) (i : ℕ) : ℕ :=
  if _h : i < l.length ∧ (l.getD i .ninf).eqInt q then countTies l q (i + 1) + 1
  else 0
termination_by l.length - i
decreasing_by
  omega

/-- Models `human_rank_in_list(quantity, list_)` (the spec calls it
`rank_with_ties`): binary search on the sentinel-padded descending sort,
then a linear tie scan; returns `(rank, nb_ties - 1)`. -/
def human_rank_in_list (quantity : ℤ) (list_ : List ℤ) : ℕ × ℤ :=
  let sorted_list := padSorted list_
  let rank := bsearch sorted_list quantity 0 (sorted_list.length - 1)
  let nb_ties := countTies sorted_list quantity rank
  (rank, (nb_ties : ℤ) - 1)

/-! ## The `DailyCountHistory` aggregator

`day_to_count` is the association list behind the Python dict; grouping
(`_group_by_month`, `_group_by_year`, `_extract_day_of_week_to_best_count`)
iterates the entries in order, appending each count to its key's bucket. -/

/-- One step of `d[k] = d.get(k, []) + [count]` on an association list of
buckets. -/
def insertGroup {κ : Type} [DecidableEq κ] :
    List (κ × List ℤ) → κ → ℤ → List (κ × List ℤ)
  | [], k, c => [(k, [c])]
  | (k', cs) :: t, k, c =>
    if k' = k then (k', cs ++ [c]) :: t else (k', cs) :: insertGroup t k c

/-- Bucket the values of `l` by `key` applied to the first component. -/
def groupBy {κ : Type} [DecidableEq κ] (key : Instant → κ)
    (l : List (Instant × ℤ)) : List (κ × List ℤ) :=
  l.foldl (fun acc p => insertGroup acc (key p.1) p.2) []

/-- Models `{k: sum(counts) for k, counts in buckets.items()}`. -/
def groupSum {κ : Type} [DecidableEq κ] (key : Instant → κ)
    (l : List (Instant × ℤ)) : List (κ × ℤ) :=
  (groupBy key l).map (fun p => (p.1, p.2.sum))

/-- Models `max(counts)` for a bucket list (buckets are nonempty by construction;
the default is never used). -/
def pyMax : List ℤ → ℤ
  | [] => 0
  | c :: t => t.foldl max c

/-- Models `{k: max(counts) for k, counts in buckets.items()}`. -/
def groupMax {κ : Type} [DecidableEq κ] (key : Instant → κ)
    (l : List (Instant × ℤ)) : List (κ × ℤ) :=
  (groupBy key l).map (fun p => (p.1, pyMax p.2))

/-- The accumulating loop of `_time_range_to_cumsum`, starting from the
running total `acc`. -/
def cumsumAux : ℤ → List (Instant × ℤ) → List (Instant × ℤ)
  | _, [] => []
  | acc, (k, c) :: t => (k, acc + c) :: cumsumAux (acc + c) t

/-- Models `_time_range_to_cumsum`: iterate the entries sorted by ascending
`start_date`, accumulating a running sum. -/
def time_range_to_cumsum (l : List (Instant × ℤ)) : List (Instant × ℤ) :=
  cumsumAux 0 (l.insertionSort (fun a b => a.1.serial ≤ b.1.serial))

/-- The fields `DailyCountHistory.__init__` computes eagerly. -/
structure DailyCountHistory where
  day_to_count : List (Instant × ℤ)
  month_to_count : List (Instant × ℤ)
  year_to_count : List (Instant × ℤ)
  total : ℤ
  day_to_cumsum : List (Instant × ℤ)
  month_to_cumsum : List (Instant × ℤ)
  day_of_week_to_best_count : List (ℕ × ℤ)
deriving Repr

/-- Models `DailyCountHistory.__init__(day_to_count)`. -/
def mkDailyCountHistory (day_to_count : List (Instant × ℤ)) : DailyCountHistory :=
  let month_to_count := groupSum month_time_range day_to_count
  { day_to_count := day_to_count
    month_to_count := month_to_count
    year_to_count := groupSum year_time_range day_to_count
    total := (day_to_count.map Prod.snd).sum
    day_to_cumsum := time_range_to_cumsum day_to_count
    month_to_cumsum := time_range_to_cumsum month_to_count
    day_of_week_to_best_count := groupMax Instant.weekday day_to_count }

/-! ## Fact extraction -/

/-- Keyed lookup in the association list behind a Python dict.  `dict`
construction keeps the *last* value bound to a key, so lookup scans from
the right.  `none` models a `KeyError`. -/
def dictLookup (l : List (Instant × ℤ)) (k : Instant) : Option ℤ :=
  (l.reverse.find? (fun p => p.1 == k)).map Prod.snd

/-- Models `extract_total`: `count_history.day_to_count[target_range]`. -/
def extract_total (h : DailyCountHistory) (target : Instant) : Option ℤ :=
  dictLookup h.day_to_count target

/-- Models `extract_rank_and_ties_of_day_of_week`: rank the target day's count
among days with the same weekday (optionally restricted to its year). -/
def extract_rank_and_ties_of_day_of_week (h : DailyCountHistory)
    (target : Instant) (same_year : Bool) : Option (ℕ × ℤ) :=
  let count_with_same_dow :=
    (h.day_to_count.filter (fun p =>
      p.1.weekday == target.weekday && (!same_year || p.1.year == target.year))).map Prod.snd
  (dictLookup h.day_to_count target).map
    (fun count => human_rank_in_list count count_with_same_dow)

/-- Models `get_rank_of_day`: rank the target day's count among the days selected
by `comparator`. -/
def get_rank_of_day (h : DailyCountHistory) (target : Instant)
    (comparator : Instant → Instant → Bool) : Option (ℕ × ℤ) :=
  (dictLookup h.day_to_count target).map
    (fun count =>
      human_rank_in_list count
        ((h.day_to_count.filter (fun p => comparator p.1 target)).map Prod.snd))

/-- Models `share_year`: the two days have the same `year()`. -/
def share_year (r1 r2 : Instant) : Bool :=
  r1.year == r2.year

/-- Models `share_month`: the two days have the same `month()` number (the year is
not compared). -/
def share_month (r1 r2 : Instant) : Bool :=
  r1.month == r2.month

/-- Models `get_rank_of_day_in_year`. -/
def get_rank_of_day_in_year (h : DailyCountHistory) (target : Instant) :
    Option (ℕ × ℤ) :=
  get_rank_of_day h target share_year

/-- Models `get_rank_of_day_in_month`. -/
def get_rank_of_day_in_month (h : DailyCountHistory) (target : Instant) :
    Option (ℕ × ℤ) :=
  get_rank_of_day h target share_month

/-- Models `extract_month_total`: sum of the counts of all days whose `month()`
number equals the target's (again the year is not compared). -/
def extract_month_total (h : DailyCountHistory) (target : Instant) : ℤ :=
  ((h.day_to_count.filter (fun p => share_month p.1 target)).map Prod.snd).sum

/-- The concrete `RelevantFact` subclasses produced by
`extract_relevant_facts`, used to state which kind of fact sits where. -/
inductive FactKind where
  | historicalTotal
  | yearDayOfWeekRank
  | historicalDayOfWeekRank
  | dayOfYearRankOfTotal
  | dayOfMonthRankOfTotal
  | monthTotal
deriving DecidableEq, Repr

/-- A constructed `RelevantFact`: each constructor is one Python subclass,
holding the target range, the priority and the snapshotted payload. -/
inductive RelevantFact where
  | historicalTotal (target : Instant) (priority : ℤ) (total : ℤ)
  | yearDayOfWeekRank (target : Instant) (priority : ℤ) (dow : ℕ) (rank : ℕ) (ties : ℤ)
  | historicalDayOfWeekRank (target : Instant) (priority : ℤ) (dow : ℕ) (rank : ℕ) (ties : ℤ)
  | dayOfYearRankOfTotal (target : Instant) (priority : ℤ) (total : ℤ) (rank : ℕ) (ties : ℤ)
  | dayOfMonthRankOfTotal (target : Instant) (priority : ℤ) (total : ℤ) (rank : ℕ) (ties : ℤ)
  | monthTotal (target : Instant) (priority : ℤ) (total : ℤ)
deriving DecidableEq, Repr

/-- The `priority` attribute of a fact. -/
def RelevantFact.priority : RelevantFact → ℤ
  | .historicalTotal _ p _ => p
  | .yearDayOfWeekRank _ p _ _ _ => p
  | .historicalDayOfWeekRank _ p _ _ _ => p
  | .dayOfYearRankOfTotal _ p _ _ _ => p
  | .dayOfMonthRankOfTotal _ p _ _ _ => p
  | .monthTotal _ p _ => p

/-- The subclass a fact was built from. -/
def RelevantFact.kind : RelevantFact → FactKind
  | .historicalTotal _ _ _ => .historicalTotal
  | .yearDayOfWeekRank _ _ _ _ _ => .yearDayOfWeekRank
  | .historicalDayOfWeekRank _ _ _ _ _ => .historicalDayOfWeekRank
  | .dayOfYearRankOfTotal _ _ _ _ _ => .dayOfYearRankOfTotal
  | .dayOfMonthRankOfTotal _ _ _ _ _ => .dayOfMonthRankOfTotal
  | .monthTotal _ _ _ => .monthTotal

/-- The errors `extract_relevant_facts` can raise: the explicit
`ValueError` guard, or a `KeyError` from `day_to_count[target_range]`. -/
inductive ExtractError where
  | validation (msg : String)
  | keyError
deriving DecidableEq, Repr

/-- Turn an optional lookup result into a `KeyError`-raising computation. -/
def keyed {α : Type} : Option α → Except ExtractError α
  | none => .error .keyError
  | some a => .ok a

/-- Models `extract_relevant_facts(count_history, among_range, target_range)`:
guard that `among_range` contains the target day's start and end, then
build the six facts in source order (the hourly branch is `pass`). -/
def extract_relevant_facts (h : DailyCountHistory) (among : PyTimeRange)
    (target : Instant) : Except ExtractError (List RelevantFact) :=
  if !(among.contains target) || !(among.contains (nextDay target)) then
    .error (.validation "Arg among_range must contain arg target_range")
  else do
    let total ← keyed (extract_total h target)
    let yearDow ← keyed (extract_rank_and_ties_of_day_of_week h target true)
    let histDow ← keyed (extract_rank_and_ties_of_day_of_week h target false)
    let countYear ← keyed (dictLookup h.day_to_count target)
    let yearRank ← keyed (get_rank_of_day_in_year h target)
    let countMonth ← keyed (dictLookup h.day_to_count target)
    let monthRank ← keyed (get_rank_of_day_in_month h target)
    .ok
      [ .historicalTotal target 0 total,
        .yearDayOfWeekRank target 0 target.weekday yearDow.1 yearDow.2,
        .historicalDayOfWeekRank target 0 target.weekday histDow.1 histDow.2,
        .dayOfYearRankOfTotal target 0 countYear yearRank.1 yearRank.2,
        .dayOfMonthRankOfTotal target 0 countMonth monthRank.1 monthRank.2,
        .monthTotal target 0 (extract_month_total h target) ]

/-! ## Ingestion: `EcoCounterDownloader` -/

/-- Models `_check_answer`: the inverted start-date test `not answer[0][0] !=
'09/02/2019'` rejects precisely the answers whose first date *is*
`09/02/2019`; then the arity test requires the set of lengths of
`answer[:-1]` to be exactly `{2}`. -/
def check_answer (answer : List (List String)) : Bool × String :=
  if (answer.headD []).headD "" == "09/02/2019" then
    (false, "Expected first day of data: 09/02/2019. Received " ++ (answer.headD []).headD "")
  else if (answer.dropLast.map List.length).toFinset ≠ ({2} : Finset ℕ) then
    (false, "Expecting a list of pairs")
  else (true, "")

/-- Split a character list at every occurrence of `c`. -/
def splitOnChar (c : Char) : List Char → List (List Char)
  | [] => [[]]
  | x :: t =>
    if x = c then [] :: splitOnChar c t
    else
      match splitOnChar c t with
      | [] => [[x]]
      | h :: r => (x :: h) :: r

/-- The numeric value of a decimal digit character. -/
def digitVal (c : Char) : Option ℕ :=
  if c.isDigit then some (c.toNat - 48) else none

/-- A nonempty all-digit character list read as a decimal number. -/
def natFromDigits (l : List Char) : Option ℕ :=
  if l = [] then none
  else l.foldl
    (fun acc c => acc.bind (fun n => (digitVal c).map (fun d => n * 10 + d)))
    (some 0)

/-- Modelled from the spec: `parse_mdy` (from `rivoli.utils`, not under
`src/`) parses a `MM/DD/YYYY` date string into a midnight `datetime`; the
spec fixes the format through the examples `09/02/2019` (2019-09-02) and
the padding day `09/01/2019` (2019-09-01). -/
def parse_mdy (s : String) : Option Instant :=
  match (splitOnChar '/' s.toList).map natFromDigits with
  | [some m, some d, some y] => some ⟨y, m, d, 0, 0, 0⟩
  | _ => none

/-- Models `int(float(pair[1]))` (`src/app_v2.py:390`) on the unsigned
all-digit count strings the raw-data source delivers; Python's
`int∘float` also accepts signed and fractional spellings, which never
occur in the validated data and are out of scope here. -/
def parseCount (s : String) : Option ℤ :=
  (natFromDigits s.toList).map Int.ofNat

/-- Models `_format_pair`: a `(date, count)` pair becomes a `(DayTimeRange, int)`
entry; a wrong arity or an unparsable field raises. -/
def format_pair (pair : List String) : Except String (Instant × ℤ) :=
  if pair.length ≠ 2 then .error "Need a pair as argument"
  else
    match parse_mdy (pair.headD ""), parseCount ((pair.drop 1).headD "") with
    | some date, some count =>
      if dayCheckOk date then .ok (date, count)
      else .error "Date is not a day"
    | _, _ => .error "Cannot parse pair"

/-- Models `_pad_answer`: prepend the pair `['09/01/2019', '0']`. -/
def pad_answer (answer : List (List String)) : List (List String) :=
  [["09/01/2019", "0"]] ++ answer

/-- Models `_format_answer`: check the answer, pad it, parse every pair of the
padded list *minus its last element*, and build the history from
`dict([...])` over the parsed pairs.  `DayTimeRange` defines no
`__eq__`/`__hash__`, so each `_format_pair` call yields a fresh
identity-hashed key and the dict keeps every parsed pair as a distinct
entry, in order — the dict is the list of parsed entries. -/
def format_answer (answer : List (List String)) :
    Except String DailyCountHistory := do
  if !(check_answer answer).1 then
    .error ("Cannot build count history from url answer, reason: " ++ (check_answer answer).2)
  else do
    let entries ← ((pad_answer answer).dropLast).mapM format_pair
    .ok (mkDailyCountHistory entries)

/-! ## The `Dictionary` loader -/

/-- The `DictionaryKey` enumeration. -/
inductive DictionaryKey where
  | HISTORICAL_TOTAL | YEAR_TOTAL | MONTH_TOTAL
  | FIRST | SECOND | THIRD | ITH
  | FEMALE_BEST | MALE_BEST
  | MONDAY | TUESDAY | WEDNESDAY | THURSDAY | FRIDAY | SATURDAY | SUNDAY
  | SINCE_BEGINING | SINCE_BEGINING_OF_YEAR | SINCE_BEGINING_OF_MONTH
  | DAY_OF_MONTH | DAY_OF_YEAR | DAY_OF_HISTORY
  | MONTH_OF_YEAR | MONTH_OF_HISTORY | YEAR_OF_HISTORY
  | YESTERDAY | TODAY
deriving DecidableEq, Repr

/-- Models `DictionaryKey(value)`: look an enum member up by its string value
(`ValueError`, i.e. `none`, for an unknown string). -/
def DictionaryKey.ofString : String → Option DictionaryKey
  | "HISTORICAL_TOTAL" => some .HISTORICAL_TOTAL
  | "YEAR_TOTAL" => some .YEAR_TOTAL
  | "MONTH_TOTAL" => some .MONTH_TOTAL
  | "FIRST" => some .FIRST
  | "SECOND" => some .SECOND
  | "THIRD" => some .THIRD
  | "ITH" => some .ITH
  | "FEMALE_BEST" => some .FEMALE_BEST
  | "MALE_BEST" => some .MALE_BEST
  | "MONDAY" => some .MONDAY
  | "TUESDAY" => some .TUESDAY
  | "WEDNESDAY" => some .WEDNESDAY
  | "THURSDAY" => some .THURSDAY
  | "FRIDAY" => some .FRIDAY
  | "SATURDAY" => some .SATURDAY
  | "SUNDAY" => some .SUNDAY
  | "SINCE_BEGINING" => some .SINCE_BEGINING
  | "SINCE_BEGINING_OF_YEAR" => some .SINCE_BEGINING_OF_YEAR
  | "SINCE_BEGINING_OF_MONTH" => some .SINCE_BEGINING_OF_MONTH
  | "DAY_OF_MONTH" => some .DAY_OF_MONTH
  | "DAY_OF_YEAR" => some .DAY_OF_YEAR
  | "DAY_OF_HISTORY" => some .DAY_OF_HISTORY
  | "MONTH_OF_YEAR" => some .MONTH_OF_YEAR
  | "MONTH_OF_HISTORY" => some .MONTH_OF_HISTORY
  | "YEAR_OF_HISTORY" => some .YEAR_OF_HISTORY
  | "YESTERDAY" => some .YESTERDAY
  | "TODAY" => some .TODAY
  | _ => none

/-- The `Language` enumeration. -/
inductive PyLanguage where
  | FR
  | EN
deriving DecidableEq, Repr

/-- Models `Language(value)`. -/
def PyLanguage.ofString : String → Option PyLanguage
  | "fr" => some .FR
  | "en" => some .EN
  | _ => none

/-- A validated `Dictionary`: semantic key → language → sentence. -/
structure Dictionary where
  key_to_language_to_sentence : List (DictionaryKey × List (PyLanguage × String))
deriving DecidableEq, Repr

/-- Models `Dictionary.check_json`: the test `if isinstance(json_dictionary,
dict): return False, ...` fires on every dict — the typed input here is
always a dict, so the check always reports failure. -/
def Dictionary.check_json (_json_dictionary : List (String × List (String × String))) :
    Bool × String :=
  (false, "json_dictionary must be of type dict")

/-- One `{Language(language): sentence}` inner comprehension. -/
def parseLanguages (l : List (String × String)) :
    Option (List (PyLanguage × String)) :=
  l.mapM (fun p => (PyLanguage.ofString p.1).map (fun lang => (lang, p.2)))

/-- Models `Dictionary.from_json`: raise if `check_json` fails, otherwise build
the nested enum-keyed mapping. -/
def Dictionary.from_json (json_dictionary : List (String × List (String × String))) :
    Except String Dictionary :=
  if !(Dictionary.check_json json_dictionary).1 then
    .error (Dictionary.check_json json_dictionary).2
  else
    match json_dictionary.mapM (fun p =>
      (DictionaryKey.ofString p.1).bind (fun k =>
        (parseLanguages p.2).map (fun ls => (k, ls)))) with
    | some entries => .ok ⟨entries⟩
    | none => .error "bad key"

/-! ## Calendar order lemmas -/

set_option maxHeartbeats 1000000 in
theorem daysInMonth_le (y m : ℕ) : daysInMonth y m ≤ 31 := by
  unfold daysInMonth
  split_ifs <;> omega

set_option maxHeartbeats 1000000 in
theorem dateSerial_lt_nextDate (y m d : ℕ) (hm : m ≤ 12)
    (hd : d ≤ daysInMonth y m) :
    dateSerial y m d <
      dateSerial (nextDate y m d).1 (nextDate y m d).2.1 (nextDate y m d).2.2 := by
  have h31 := daysInMonth_le y m
  unfold nextDate dateSerial
  split_ifs <;> simp <;> omega

/-- Destructured numeric bounds of `validb`. -/
theorem validb_bounds (i : Instant) (h : i.validb = true) :
    1 ≤ i.year ∧ i.year ≤ 9999 ∧ 1 ≤ i.month ∧ i.month ≤ 12 ∧ 1 ≤ i.day ∧
      i.day ≤ daysInMonth i.year i.month ∧ i.hour ≤ 23 ∧ i.minute ≤ 59 ∧
      i.second ≤ 59 := by
  simp only [Instant.validb, Bool.and_eq_true, decide_eq_true_eq] at h
  tauto

theorem serial_lt_nextDay (i : Instant) (h : i.validb = true) :
    i.serial < (nextDay i).serial := by
  obtain ⟨-, -, hm, hm12, -, hd, -, -, -⟩ := validb_bounds i h
  have := dateSerial_lt_nextDate i.year i.month i.day hm12 hd
  unfold Instant.serial nextDay
  simp only
  omega

theorem serial_lt_addHour (i : Instant) (h : i.validb = true) :
    i.serial < (addHour i).serial := by
  obtain ⟨-, -, hm, hm12, -, hd, hh, -, -⟩ := validb_bounds i h
  have := dateSerial_lt_nextDate i.year i.month i.day hm12 hd
  unfold Instant.serial addHour
  split_ifs with h1 <;> simp only <;> omega

/-! ## The ranking engine, characterized

`bsearch` maintains `sorted_list[left] > quantity` and
`¬(sorted_list[right] > quantity)` and narrows until `right = left + 1`;
on the sorted padded list this pins `right` to the index of the first
element `≤ quantity`, i.e. to `1 + #{x ∈ pop | x > quantity}`.  The tie
scan then counts the contiguous block of elements equal to `quantity`. -/

theorem PyVal.ge_refl (v : PyVal) : PyVal.ge v v := by
  cases v <;> simp [PyVal.ge]

theorem gtInt_mono {a b : PyVal} {q : ℤ} (hab : PyVal.ge a b)
    (h : b.gtInt q = true) : a.gtInt q = true := by
  cases a <;> cases b <;>
    simp_all [PyVal.ge, PyVal.gtInt] <;> omega

theorem eqInt_iff {a : PyVal} {q : ℤ} : a.eqInt q = true ↔ a = .int q := by
  cases a <;> simp [PyVal.eqInt]

theorem eqInt_false_of_gtInt {a : PyVal} {q : ℤ} (h : a.gtInt q = true) :
    a.eqInt q = false := by
  cases a <;> simp_all [PyVal.gtInt, PyVal.eqInt] <;> omega

theorem eq_int_of_ge_not_gt {a : PyVal} {q : ℤ} (h1 : PyVal.ge a (.int q))
    (h2 : a.gtInt q = false) : a = .int q := by
  cases a <;> simp_all [PyVal.ge, PyVal.gtInt] <;> omega

theorem pySortDesc_perm (l : List ℤ) : List.Perm (pySortDesc l) l :=
  List.perm_insertionSort _ l

theorem pySortDesc_sorted (l : List ℤ) :
    (pySortDesc l).Sorted (· ≥ ·) :=
  List.sorted_insertionSort _ l

theorem padSorted_length (l : List ℤ) :
    (padSorted l).length = l.length + 2 := by
  simp [padSorted, pySortDesc, List.length_insertionSort]

theorem padSorted_sorted (l : List ℤ) : (padSorted l).Sorted PyVal.ge := by
  unfold padSorted
  rw [List.sorted_cons]
  constructor
  · intro b _
    cases b <;> trivial
  · rw [List.Sorted, List.pairwise_append]
    refine ⟨?_, by simp, ?_⟩
    · rw [List.pairwise_map]
      exact (pySortDesc_sorted l).imp (fun h => h)
    · intro a ha b hb
      simp only [List.mem_singleton] at hb
      subst hb
      obtain ⟨z, -, rfl⟩ := List.mem_map.mp ha
      trivial

theorem getD_eq_getElem {α : Type} (l : List α) (d : α) {i : ℕ}
    (h : i < l.length) : l.getD i d = l[i] := by
  simp [List.getD_eq_getElem?_getD, List.getElem?_eq_getElem h]

theorem getD_eq_default {α : Type} (l : List α) (d : α) {i : ℕ}
    (h : l.length ≤ i) : l.getD i d = d := by
  simp [List.getD_eq_getElem?_getD, List.getElem?_eq_none h]

theorem sorted_getD_mono {l : List PyVal} (hl : l.Sorted PyVal.ge)
    {i j : ℕ} (hij : i ≤ j) (hj : j < l.length) :
    PyVal.ge (l.getD i .ninf) (l.getD j .ninf) := by
  have hi : i < l.length := lt_of_le_of_lt hij hj
  rw [getD_eq_getElem l _ hi, getD_eq_getElem l _ hj]
  rcases Nat.eq_or_lt_of_le hij with rfl | hlt
  · exact PyVal.ge_refl _
  · exact List.pairwise_iff_getElem.mp hl i j hi hj hlt

theorem bsearch_boundary (l : List PyVal) (q : ℤ) (left right : ℕ)
    (hlr : left < right) (hr : right < l.length)
    (hleft : (l.getD left .ninf).gtInt q = true)
    (hright : (l.getD right .ninf).gtInt q = false) :
    left < bsearch l q left right ∧ bsearch l q left right ≤ right ∧
      (l.getD (bsearch l q left right - 1) .ninf).gtInt q = true ∧
      (l.getD (bsearch l q left right) .ninf).gtInt q = false := by
  induction left, right using bsearch.induct l q with
  | case1 left right h middle hgt ih =>
    have hm : middle = (left + right) / 2 := rfl
    have hmid : left < middle ∧ middle < right := by omega
    rw [bsearch, dif_pos h]
    simp only
    rw [← hm, if_pos hgt]
    obtain ⟨h1, h2, h3, h4⟩ := ih hmid.2 hr hgt hright
    exact ⟨by omega, by omega, h3, h4⟩
  | case2 left right h middle hgt ih =>
    have hm : middle = (left + right) / 2 := rfl
    have hmid : left < middle ∧ middle < right := by omega
    rw [bsearch, dif_pos h]
    simp only
    rw [← hm, if_neg hgt]
    rw [Bool.not_eq_true] at hgt
    obtain ⟨h1, h2, h3, h4⟩ := ih hmid.1 (by omega) hleft hgt
    exact ⟨h1, by omega, h3, h4⟩
  | case3 left right h =>
    rw [bsearch, dif_neg h]
    have : right = left + 1 := by omega
    subst this
    exact ⟨Nat.lt_succ_self _, le_rfl, by rw [Nat.add_sub_cancel]; exact hleft,
      hright⟩

theorem countP_eq_of_iff {α : Type} (p : α → Bool) (d : α) :
    ∀ (l : List α) (a b : ℕ), a ≤ b → b ≤ l.length →
      (∀ i, i < l.length → (p (l.getD i d) = true ↔ (a ≤ i ∧ i < b))) →
      l.countP p = b - a := by
  intro l
  induction l with
  | nil =>
    intro a b hab hb _
    simp only [List.length_nil, Nat.le_zero] at hb
    subst hb
    simp only [Nat.le_zero] at hab
    subst hab
    simp
  | cons x t ih =>
    intro a b hab hb hiff
    have h0 := hiff 0 (by simp)
    simp only [List.getD_cons_zero] at h0
    rw [List.countP_cons]
    cases b with
    | zero =>
      have ha : a = 0 := by omega
      subst ha
      have hx : p x = false := by
        rw [Bool.eq_false_iff]
        intro hpx
        have := h0.mp hpx
        omega
      have ht : t.countP p = 0 - 0 := by
        refine ih 0 0 le_rfl (by omega) ?_
        intro i hi
        have := hiff (i + 1) (by simpa using Nat.succ_lt_succ hi)
        simp only [List.getD_cons_succ] at this
        rw [this]
        omega
      simp [hx, ht]
    | succ b' =>
      cases a with
      | zero =>
        have hx : p x = true := by
          rw [h0]
          omega
        have ht : t.countP p = b' - 0 := by
          refine ih 0 b' (by omega) (by simp at hb; omega) ?_
          intro i hi
          have := hiff (i + 1) (by simpa using Nat.succ_lt_succ hi)
          simp only [List.getD_cons_succ] at this
          rw [this]
          omega
        rw [hx, ht, if_pos rfl]
        omega
      | succ a' =>
        have hx : p x = false := by
          rw [Bool.eq_false_iff]
          intro hpx
          have := h0.mp hpx
          omega
        have ht : t.countP p = b' - a' := by
          refine ih a' b' (by omega) (by simp at hb; omega) ?_
          intro i hi
          have := hiff (i + 1) (by simpa using Nat.succ_lt_succ hi)
          simp only [List.getD_cons_succ] at this
          rw [this]
          omega
        rw [hx, ht, if_neg (by simp)]
        omega

theorem countTies_spec (l : List PyVal) (q : ℤ) :
    ∀ i, i ≤ l.length →
      i + countTies l q i ≤ l.length ∧
      (∀ j, i ≤ j → j < i + countTies l q i →
        (l.getD j .ninf).eqInt q = true) ∧
      (i + countTies l q i < l.length →
        (l.getD (i + countTies l q i) .ninf).eqInt q = false) := by
  intro i
  induction i using countTies.induct l q with
  | case1 i h ih =>
    intro _
    rw [countTies, dif_pos h]
    obtain ⟨ih1, ih2, ih3⟩ := ih (by omega)
    refine ⟨by omega, ?_, ?_⟩
    · intro j hj1 hj2
      rcases Nat.eq_or_lt_of_le hj1 with rfl | hlt
      · exact h.2
      · exact ih2 j hlt (by omega)
    · intro hlen
      have hlt : i + 1 + countTies l q (i + 1) < l.length := by omega
      have hidx : i + (countTies l q (i + 1) + 1) =
          i + 1 + countTies l q (i + 1) := by omega
      rw [hidx]
      exact ih3 hlt
  | case2 i h =>
    intro hi
    rw [countTies, dif_neg h]
    rw [not_and] at h
    refine ⟨by omega, by omega, ?_⟩
    intro hlen
    simp only [Nat.add_zero] at hlen
    have := h hlen
    rw [Bool.not_eq_true] at this
    simpa using this

theorem getD_append_len {α : Type} (l : List α) (x d : α) :
    (l ++ [x]).getD l.length d = x := by
  induction l with
  | nil => rfl
  | cons h t ih => simpa using ih

theorem padSorted_getD_last (pop : List ℤ) :
    (padSorted pop).getD (pop.length + 1) .ninf = .ninf := by
  unfold padSorted
  rw [List.getD_cons_succ]
  have hm : ((pySortDesc pop).map PyVal.int).length = pop.length := by
    simp [pySortDesc, List.length_insertionSort]
  rw [← hm]
  exact getD_append_len _ _ _

/-- The full characterization of `human_rank_in_list`: the returned rank is
`1 + #{x ∈ pop | x > quantity}` — the index of the first element
`≤ quantity` in the `inf`-padded descending sort — and the returned tie
count is `#{x ∈ pop | x = quantity} - 1`. -/
theorem human_rank_spec (q : ℤ) (pop : List ℤ) :
    human_rank_in_list q pop =
      (1 + pop.countP (fun z => decide (q < z)),
        (pop.countP (fun z => z == q) : ℤ) - 1) := by
  have hlen := padSorted_length pop
  have hsorted := padSorted_sorted pop
  set l := padSorted pop with hl
  have h0 : (l.getD 0 .ninf).gtInt q = true := by rw [hl]; rfl
  have hlast : (l.getD (l.length - 1) .ninf).gtInt q = false := by
    have hidx : l.length - 1 = pop.length + 1 := by omega
    rw [hidx, hl, padSorted_getD_last]
    rfl
  obtain ⟨hb1, hb2, hb3, hb4⟩ :=
    bsearch_boundary l q 0 (l.length - 1) (by omega) (by omega) h0 hlast
  set r := bsearch l q 0 (l.length - 1) with hr
  have hchar_gt : ∀ i, i < l.length →
      ((l.getD i .ninf).gtInt q = true ↔ (0 ≤ i ∧ i < r)) := by
    intro i hi
    constructor
    · intro hgt
      refine ⟨Nat.zero_le _, ?_⟩
      by_contra hge
      push_neg at hge
      have := gtInt_mono (sorted_getD_mono hsorted hge hi) hgt
      rw [this] at hb4
      cases hb4
    · rintro ⟨-, hir⟩
      have hr1 : r - 1 < l.length := by omega
      exact gtInt_mono (sorted_getD_mono hsorted (by omega : i ≤ r - 1) hr1) hb3
  have hcount_gt : l.countP (fun v => v.gtInt q) = r - 0 :=
    countP_eq_of_iff _ .ninf l 0 r (by omega) (by omega) hchar_gt
  have htrans_gt : l.countP (fun v => v.gtInt q) =
      1 + pop.countP (fun z => decide (q < z)) := by
    rw [hl]
    unfold padSorted
    rw [List.countP_cons]
    simp only [List.countP_append, List.countP_map]
    rw [(pySortDesc_perm pop).countP_eq]
    simp [PyVal.gtInt, Function.comp_def]
    omega
  obtain ⟨ht1, ht2, ht3⟩ := countTies_spec l q r (by omega)
  set k := countTies l q r with hk
  have hchar_eq : ∀ i, i < l.length →
      ((l.getD i .ninf).eqInt q = true ↔ (r ≤ i ∧ i < r + k)) := by
    intro i hi
    constructor
    · intro heq
      have hint : l.getD i .ninf = .int q := eqInt_iff.mp heq
      have hgt_i : (l.getD i .ninf).gtInt q = false := by
        rw [hint]
        simp [PyVal.gtInt]
      have hge_r : r ≤ i := by
        by_contra hlt
        push_neg at hlt
        have := (hchar_gt i hi).mpr ⟨Nat.zero_le _, hlt⟩
        rw [this] at hgt_i
        cases hgt_i
      refine ⟨hge_r, ?_⟩
      by_contra hge
      push_neg at hge
      have hklen : r + k < l.length := by omega
      have hfalse := ht3 hklen
      have hge_v : PyVal.ge (l.getD (r + k) .ninf) (l.getD i .ninf) :=
        sorted_getD_mono hsorted hge hi
      rw [hint] at hge_v
      have hgt_rk : (l.getD (r + k) .ninf).gtInt q = false := by
        cases hb : (l.getD (r + k) .ninf).gtInt q with
        | false => rfl
        | true =>
          have := (hchar_gt (r + k) hklen).mp hb
          omega
      have := eq_int_of_ge_not_gt hge_v hgt_rk
      rw [this] at hfalse
      simp [PyVal.eqInt] at hfalse
    · rintro ⟨h1, h2⟩
      exact ht2 i h1 h2
  have hcount_eq : l.countP (fun v => v.eqInt q) = (r + k) - r :=
    countP_eq_of_iff _ .ninf l r (r + k) (by omega) (by omega) hchar_eq
  have htrans_eq : l.countP (fun v => v.eqInt q) =
      pop.countP (fun z => z == q) := by
    rw [hl]
    unfold padSorted
    rw [List.countP_cons]
    simp only [List.countP_append, List.countP_map]
    rw [(pySortDesc_perm pop).countP_eq]
    simp [PyVal.eqInt, Function.comp_def]
  have hres : human_rank_in_list q pop = (r, (k : ℤ) - 1) := rfl
  have hfst : r = 1 + pop.countP (fun z => decide (q < z)) := by omega
  have hsnd : k = pop.countP (fun z => z == q) := by omega
  rw [hres, hfst, hsnd]

/-! ## Claims C1 and C2: the rank and tie count of `human_rank_in_list` -/

/-- C1: on the spec's own example, `human_rank_in_list(5, [0,5,5,3])`
returns `(1, 1)`, not `(0, 1)`: the returned rank is the index in the
`inf`-padded sorted list, i.e. one *more* than the number of elements
strictly greater than the value, so the best value gets rank 1 — while
the renderer (`rank_to_ordinal`, `get_male_best`) treats rank 0 as
"first/best". -/
theorem human_rank_eval_spec_example :
    human_rank_in_list 5 [0, 5, 5, 3] = (1, 1) := by
  rw [human_rank_spec]
  decide

/-- C2: the second component of `human_rank_in_list(v, pop)` is the number
of elements of `pop` equal to `v`, minus 1 (hence `-1` when `v` has no
match in `pop`). -/
theorem human_rank_tie_count (v : ℤ) (pop : List ℤ) :
    (human_rank_in_list v pop).2 =
      (pop.countP (fun z => z == v) : ℤ) - 1 := by
  rw [human_rank_spec]

/-! ## Claim C3: CountHistory invariants -/

theorem insertGroup_values_perm {κ : Type} [DecidableEq κ]
    (acc : List (κ × List ℤ)) (k : κ) (c : ℤ) :
    List.Perm (((insertGroup acc k c).map Prod.snd).flatten)
      (((acc.map Prod.snd).flatten) ++ [c]) := by
  induction acc with
  | nil => simp [insertGroup]
  | cons p t ih =>
    obtain ⟨k', cs⟩ := p
    by_cases hk : k' = k
    · subst hk
      simp only [insertGroup, if_true, eq_self_iff_true, List.map_cons,
        List.flatten_cons, List.append_assoc]
      exact List.perm_append_comm.append_left cs
    · simp only [insertGroup, if_neg hk, List.map_cons, List.flatten_cons,
        List.append_assoc]
      exact ih.append_left cs

theorem groupBy_fold_values_perm {κ : Type} [DecidableEq κ]
    (key : Instant → κ) (l : List (Instant × ℤ)) :
    ∀ acc : List (κ × List ℤ),
      List.Perm
        (((l.foldl (fun acc p => insertGroup acc (key p.1) p.2) acc).map
          Prod.snd).flatten)
        (((acc.map Prod.snd).flatten) ++ l.map Prod.snd) := by
  induction l with
  | nil =>
    intro acc
    simp
  | cons p t ih =>
    intro acc
    simp only [List.foldl_cons, List.map_cons]
    refine (ih (insertGroup acc (key p.1) p.2)).trans ?_
    refine ((insertGroup_values_perm acc (key p.1) p.2).append_right _).trans ?_
    rw [List.append_assoc]
    exact List.Perm.refl _

theorem groupBy_values_perm {κ : Type} [DecidableEq κ]
    (key : Instant → κ) (l : List (Instant × ℤ)) :
    List.Perm (((groupBy key l).map Prod.snd).flatten) (l.map Prod.snd) := by
  have h := groupBy_fold_values_perm key l []
  simp only [List.map_nil, List.flatten_nil, List.nil_append] at h
  exact h

theorem groupSum_values_sum {κ : Type} [DecidableEq κ]
    (key : Instant → κ) (l : List (Instant × ℤ)) :
    ((groupSum key l).map Prod.snd).sum = (l.map Prod.snd).sum := by
  have hsum := (groupBy_values_perm key l).sum_eq
  calc ((groupSum key l).map Prod.snd).sum
      = (((groupBy key l).map Prod.snd).map List.sum).sum := by
        simp [groupSum, List.map_map, Function.comp_def]
    _ = (((groupBy key l).map Prod.snd).flatten).sum :=
        List.sum_flatten.symm
    _ = (l.map Prod.snd).sum := hsum

theorem groupSum_values_nonneg {κ : Type} [DecidableEq κ]
    (key : Instant → κ) (l : List (Instant × ℤ))
    (h : ∀ p ∈ l, 0 ≤ p.2) :
    ∀ v ∈ (groupSum key l).map Prod.snd, 0 ≤ v := by
  intro v hv
  simp only [groupSum, List.map_map, List.mem_map, Function.comp_def] at hv
  obtain ⟨⟨k, cs⟩, hmem, rfl⟩ := hv
  refine List.sum_nonneg ?_
  intro c hc
  have hflat : c ∈ ((groupBy key l).map Prod.snd).flatten := by
    simp only [List.mem_flatten, List.mem_map]
    exact ⟨cs, ⟨⟨k, cs⟩, hmem, rfl⟩, hc⟩
  have hmem2 := (groupBy_values_perm key l).mem_iff.mp hflat
  simp only [List.mem_map] at hmem2
  obtain ⟨p, hp, rfl⟩ := hmem2
  exact h p hp

theorem cumsumAux_chain (l : List (Instant × ℤ)) :
    ∀ a : ℤ, (∀ p ∈ l, 0 ≤ p.2) →
      List.Chain' (· ≤ ·) (a :: (cumsumAux a l).map Prod.snd) := by
  induction l with
  | nil =>
    intro a _
    exact List.chain'_singleton a
  | cons p t ih =>
    intro a h
    obtain ⟨k, c⟩ := p
    simp only [cumsumAux, List.map_cons]
    rw [List.chain'_cons]
    constructor
    · have hc : (0 : ℤ) ≤ c := h (k, c) (by simp)
      omega
    · exact ih (a + c) (fun p hp => h p (by simp [hp]))

theorem cumsumAux_last (l : List (Instant × ℤ)) :
    ∀ a : ℤ,
      ((cumsumAux a l).map Prod.snd).getLastD a = a + (l.map Prod.snd).sum := by
  induction l with
  | nil =>
    intro a
    simp [cumsumAux]
  | cons p t ih =>
    intro a
    obtain ⟨k, c⟩ := p
    simp only [cumsumAux, List.map_cons, List.getLastD_cons]
    rw [ih (a + c)]
    simp only [List.map_cons, List.sum_cons]
    ring

theorem cumsum_chain (l : List (Instant × ℤ)) (h : ∀ p ∈ l, 0 ≤ p.2) :
    List.Chain' (· ≤ ·) ((time_range_to_cumsum l).map Prod.snd) := by
  unfold time_range_to_cumsum
  have hperm := List.perm_insertionSort
    (fun a b : Instant × ℤ => a.1.serial ≤ b.1.serial) l
  have hall : ∀ p ∈ l.insertionSort
      (fun a b : Instant × ℤ => a.1.serial ≤ b.1.serial), 0 ≤ p.2 :=
    fun p hp => h p (hperm.mem_iff.mp hp)
  exact (cumsumAux_chain _ 0 hall).tail

theorem cumsum_last (l : List (Instant × ℤ)) :
    ((time_range_to_cumsum l).map Prod.snd).getLastD 0 =
      (l.map Prod.snd).sum := by
  unfold time_range_to_cumsum
  rw [cumsumAux_last]
  have hperm := (List.perm_insertionSort
    (fun a b : Instant × ℤ => a.1.serial ≤ b.1.serial) l).map Prod.snd
  rw [hperm.sum_eq]
  ring

/-- C3: for every daily count mapping with non-negative counts, the
constructed history's `total` is the sum of all base counts (so 0 for the
empty mapping), both cumulative-sum mappings (built in ascending
start-date order) carry non-decreasing values, and the last cumulative
value of each equals `total`. -/
theorem count_history_invariants (d2c : List (Instant × ℤ))
    (hpos : ∀ p ∈ d2c, 0 ≤ p.2) :
    (mkDailyCountHistory d2c).total = (d2c.map Prod.snd).sum ∧
    List.Chain' (· ≤ ·)
      ((mkDailyCountHistory d2c).day_to_cumsum.map Prod.snd) ∧
    List.Chain' (· ≤ ·)
      ((mkDailyCountHistory d2c).month_to_cumsum.map Prod.snd) ∧
    ((mkDailyCountHistory d2c).day_to_cumsum.map Prod.snd).getLastD 0 =
      (mkDailyCountHistory d2c).total ∧
    ((mkDailyCountHistory d2c).month_to_cumsum.map Prod.snd).getLastD 0 =
      (mkDailyCountHistory d2c).total := by
  have hmonth_nonneg : ∀ p ∈ groupSum month_time_range d2c, 0 ≤ p.2 := by
    intro p hp
    exact groupSum_values_nonneg month_time_range d2c hpos p.2
      (List.mem_map.mpr ⟨p, hp, rfl⟩)
  refine ⟨rfl, ?_, ?_, ?_, ?_⟩
  · exact cumsum_chain d2c hpos
  · exact cumsum_chain _ hmonth_nonneg
  · exact cumsum_last d2c
  · calc ((mkDailyCountHistory d2c).month_to_cumsum.map Prod.snd).getLastD 0
        = ((groupSum month_time_range d2c).map Prod.snd).sum :=
          cumsum_last _
      _ = (d2c.map Prod.snd).sum := groupSum_values_sum _ _
      _ = (mkDailyCountHistory d2c).total := rfl

/-- Witness for `count_history_invariants` on a tiny concrete history. -/
theorem count_history_invariants_witness :
    (∀ p ∈ ([(⟨2019, 9, 1, 0, 0, 0⟩, (0 : ℤ)),
      (⟨2019, 9, 2, 0, 0, 0⟩, 5)] : List (Instant × ℤ)), 0 ≤ p.2) ∧
    (mkDailyCountHistory [(⟨2019, 9, 1, 0, 0, 0⟩, (0 : ℤ)),
      (⟨2019, 9, 2, 0, 0, 0⟩, 5)]).total = 5 :=
  ⟨by decide,
    ((count_history_invariants _ (by decide)).1).trans (by decide)⟩

/-! ## Claim C7: TimeRange construction validation -/

/-- C7: construction raises a validation error exactly on misalignment:
a Day range requires zero hour/minute/second; a Month range requires Day
alignment and day-of-month 1; a Year range requires Month alignment and
month 1; an Hour range requires zero minute and second. -/
theorem time_range_checks_iff_aligned (d : Instant) :
    (dayCheckOk d = true ↔ (d.hour = 0 ∧ d.minute = 0 ∧ d.second = 0)) ∧
    (monthCheckOk d = true ↔ (dayCheckOk d = true ∧ d.day = 1)) ∧
    (yearCheckOk d = true ↔ (monthCheckOk d = true ∧ d.month = 1)) ∧
    (hourCheckOk d = true ↔ (d.minute = 0 ∧ d.second = 0)) := by
  simp [dayCheckOk, monthCheckOk, yearCheckOk, hourCheckOk]
  tauto

/-! ## Claim C6: TimeRange containment -/

/-- C6 (counterexample): a `CustomTimeRange` is successfully constructed
without any validation, and with `end_date = start_date` it does *not*
contain its own start; so containment is not reflexive at the boundary for
every successfully constructed `TimeRange`. -/
theorem custom_range_not_reflexive :
    (PyTimeRange.custom ⟨2020, 1, 1, 0, 0, 0⟩ ⟨2020, 1, 1, 0, 0, 0⟩).contains
      ⟨2020, 1, 1, 0, 0, 0⟩ = false := by
  rfl

/-- C6 (amended): for every constructed TimeRange whose start is a valid
instant, `contains(start)` is true — for Custom ranges provided
`start < end`, which no constructor validates; Day/Hour/Custom ranges are
half-open (`contains d ↔ start ≤ d < end`, and `contains end` is false);
Month ranges contain exactly the instants with the same year and month,
Year ranges exactly those with the same year. -/
theorem time_range_containment (s e d : Instant) (hs : s.validb = true) :
    (dayCheckOk s = true →
      ((PyTimeRange.day s).contains s = true ∧
       (PyTimeRange.day s).contains (nextDay s) = false ∧
       ((PyTimeRange.day s).contains d = true ↔
         s.serial ≤ d.serial ∧ d.serial < (nextDay s).serial))) ∧
    (hourCheckOk s = true →
      ((PyTimeRange.hour s).contains s = true ∧
       (PyTimeRange.hour s).contains (addHour s) = false ∧
       ((PyTimeRange.hour s).contains d = true ↔
         s.serial ≤ d.serial ∧ d.serial < (addHour s).serial))) ∧
    (s.serial < e.serial →
      ((PyTimeRange.custom s e).contains s = true ∧
       (PyTimeRange.custom s e).contains e = false ∧
       ((PyTimeRange.custom s e).contains d = true ↔
         s.serial ≤ d.serial ∧ d.serial < e.serial))) ∧
    ((PyTimeRange.month s).contains s = true ∧
     ((PyTimeRange.month s).contains d = true ↔
       s.year = d.year ∧ s.month = d.month)) ∧
    ((PyTimeRange.year s).contains s = true ∧
     ((PyTimeRange.year s).contains d = true ↔ s.year = d.year)) := by
  have h1 := serial_lt_nextDay s hs
  have h2 := serial_lt_addHour s hs
  refine ⟨fun _ => ⟨?_, ?_, ?_⟩, fun _ => ⟨?_, ?_, ?_⟩,
    fun hlt => ⟨?_, ?_, ?_⟩, ⟨?_, ?_⟩, ⟨?_, ?_⟩⟩ <;>
    simp only [PyTimeRange.contains, Bool.and_eq_true, Bool.and_eq_false_iff,
      decide_eq_true_eq, decide_eq_false_iff_not, beq_iff_eq, not_le, not_lt] <;>
    first | rfl | exact ⟨trivial, trivial⟩ | omega

/-- Witness for `time_range_containment` at 2019-09-02. -/
theorem time_range_containment_witness :
    (⟨2019, 9, 2, 0, 0, 0⟩ : Instant).validb = true ∧
    dayCheckOk ⟨2019, 9, 2, 0, 0, 0⟩ = true ∧
    (PyTimeRange.day ⟨2019, 9, 2, 0, 0, 0⟩).contains ⟨2019, 9, 2, 0, 0, 0⟩ = true ∧
    (PyTimeRange.day ⟨2019, 9, 2, 0, 0, 0⟩).contains
      (nextDay ⟨2019, 9, 2, 0, 0, 0⟩) = false :=
  ⟨by decide, by decide,
    ((time_range_containment ⟨2019, 9, 2, 0, 0, 0⟩ ⟨2019, 9, 3, 0, 0, 0⟩
        ⟨2019, 9, 2, 12, 30, 0⟩ (by decide)).1 (by decide)).1,
    ((time_range_containment ⟨2019, 9, 2, 0, 0, 0⟩ ⟨2019, 9, 3, 0, 0, 0⟩
        ⟨2019, 9, 2, 12, 30, 0⟩ (by decide)).1 (by decide)).2.1⟩

/-! ## Claim C5: month totals and month populations merge years -/

/-- C5: `share_month` and `extract_month_total` compare only the month
*number*, so with a history holding 2019-09-02 ↦ 5 and 2020-09-02 ↦ 7,
the month total for target 2020-09-02 is 12 (not 7: September 2019 is
included), and the month-rank population is [5, 7]. -/
theorem month_total_merges_years :
    extract_month_total
      (mkDailyCountHistory
        [(⟨2019, 9, 2, 0, 0, 0⟩, 5), (⟨2020, 9, 2, 0, 0, 0⟩, 7)])
      ⟨2020, 9, 2, 0, 0, 0⟩ = 12 ∧
    share_month ⟨2019, 9, 2, 0, 0, 0⟩ ⟨2020, 9, 2, 0, 0, 0⟩ = true ∧
    ((mkDailyCountHistory
        [(⟨2019, 9, 2, 0, 0, 0⟩, 5), (⟨2020, 9, 2, 0, 0, 0⟩, 7)]).day_to_count.filter
      (fun p => share_month p.1 ⟨2020, 9, 2, 0, 0, 0⟩)).map Prod.snd = [5, 7] := by
  refine ⟨rfl, rfl, rfl⟩

/-! ## Claim C8: ingestion rejects the expected start date -/

/-- C8: `_check_answer`'s start-date test is inverted (`not x != y`), so a
well-formed answer whose first date is the expected `09/02/2019` is
*rejected*, while an otherwise identical answer starting on another date
passes both validations. -/
theorem check_answer_rejects_expected_start :
    (check_answer [["09/02/2019", "10"], ["09/03/2019", "12"]]).1 = false ∧
    (check_answer [["09/03/2019", "10"], ["09/04/2019", "12"]]).1 = true := by
  refine ⟨rfl, by decide⟩

/-! ## Claim C9: the dictionary loader rejects every input -/

/-- C9: `Dictionary.check_json` returns failure whenever the input *is* a
dict, so `Dictionary.from_json` raises a `ValueError` on every input —
well-formed or not. -/
theorem from_json_always_raises (j : List (String × List (String × String))) :
    Dictionary.from_json j =
      Except.error "json_dictionary must be of type dict" := rfl

/-! ## Claim C4: fact extraction -/

/-- C4: `extract_relevant_facts` raises its validation error exactly when
`among_range` fails to contain the target day's start or end; when the
precondition holds and the target day is a key of the daily history, it
returns exactly the six facts — historical total, day-of-week rank within
the year, day-of-week rank across history, rank of the day in its year,
rank of the day in its month, and the month total — each at priority 0. -/
theorem extract_relevant_facts_spec (h : DailyCountHistory)
    (among : PyTimeRange) (target : Instant) :
    ((∃ msg, extract_relevant_facts h among target =
        Except.error (.validation msg)) ↔
      ¬(among.contains target = true ∧
        among.contains (nextDay target) = true)) ∧
    ((among.contains target = true ∧ among.contains (nextDay target) = true ∧
        (dictLookup h.day_to_count target).isSome = true) →
      ∃ l, extract_relevant_facts h among target = Except.ok l ∧
        l.map RelevantFact.kind =
          [.historicalTotal, .yearDayOfWeekRank, .historicalDayOfWeekRank,
            .dayOfYearRankOfTotal, .dayOfMonthRankOfTotal, .monthTotal] ∧
        ∀ f ∈ l, f.priority = 0) := by
  by_cases hgood : among.contains target = true ∧
      among.contains (nextDay target) = true
  · have hcond : (!(among.contains target) ||
        !(among.contains (nextDay target))) = false := by
      simp [hgood.1, hgood.2]
    rcases hl : dictLookup h.day_to_count target with _ | c
    · have hres : extract_relevant_facts h among target =
          Except.error .keyError := by
        unfold extract_relevant_facts extract_total
        rw [hcond, hl]
        rfl
      constructor
      · refine iff_of_false ?_ (not_not_intro hgood)
        rintro ⟨msg, hmsg⟩
        rw [hres] at hmsg
        simp at hmsg
      · rintro ⟨-, -, hsome⟩
        simp [hl] at hsome
    · have hres : extract_relevant_facts h among target = Except.ok
          [ .historicalTotal target 0 c,
            .yearDayOfWeekRank target 0 target.weekday
              (human_rank_in_list c ((h.day_to_count.filter (fun p =>
                p.1.weekday == target.weekday &&
                  (!true || p.1.year == target.year))).map Prod.snd)).1
              (human_rank_in_list c ((h.day_to_count.filter (fun p =>
                p.1.weekday == target.weekday &&
                  (!true || p.1.year == target.year))).map Prod.snd)).2,
            .historicalDayOfWeekRank target 0 target.weekday
              (human_rank_in_list c ((h.day_to_count.filter (fun p =>
                p.1.weekday == target.weekday &&
                  (!false || p.1.year == target.year))).map Prod.snd)).1
              (human_rank_in_list c ((h.day_to_count.filter (fun p =>
                p.1.weekday == target.weekday &&
                  (!false || p.1.year == target.year))).map Prod.snd)).2,
            .dayOfYearRankOfTotal target 0 c
              (human_rank_in_list c ((h.day_to_count.filter (fun p =>
                share_year p.1 target)).map Prod.snd)).1
              (human_rank_in_list c ((h.day_to_count.filter (fun p =>
                share_year p.1 target)).map Prod.snd)).2,
            .dayOfMonthRankOfTotal target 0 c
              (human_rank_in_list c ((h.day_to_count.filter (fun p =>
                share_month p.1 target)).map Prod.snd)).1
              (human_rank_in_list c ((h.day_to_count.filter (fun p =>
                share_month p.1 target)).map Prod.snd)).2,
            .monthTotal target 0 (extract_month_total h target) ] := by
        unfold extract_relevant_facts extract_total
          extract_rank_and_ties_of_day_of_week get_rank_of_day_in_year
          get_rank_of_day_in_month get_rank_of_day
        rw [hcond, hl]
        rfl
      constructor
      · refine iff_of_false ?_ (not_not_intro hgood)
        rintro ⟨msg, hmsg⟩
        rw [hres] at hmsg
        simp at hmsg
      · intro _
        refine ⟨_, hres, rfl, ?_⟩
        intro f hf
        simp only [List.mem_cons, List.not_mem_nil, or_false] at hf
        rcases hf with rfl | rfl | rfl | rfl | rfl | rfl <;> rfl
  · have hcond : (!(among.contains target) ||
        !(among.contains (nextDay target))) = true := by
      rcases Bool.eq_false_or_eq_true (among.contains target) with h1 | h1
      · rcases Bool.eq_false_or_eq_true
          (among.contains (nextDay target)) with h2 | h2
        · exact absurd ⟨h1, h2⟩ hgood
        · simp [h2]
      · simp [h1]
    have hres : extract_relevant_facts h among target = Except.error
        (.validation "Arg among_range must contain arg target_range") := by
      unfold extract_relevant_facts
      rw [hcond]
      rfl
    constructor
    · exact iff_of_true
        ⟨"Arg among_range must contain arg target_range", hres⟩ hgood
    · rintro ⟨h1, h2, -⟩
      exact absurd ⟨h1, h2⟩ hgood

/-- Witness for `extract_relevant_facts_spec` on a one-day history. -/
theorem extract_relevant_facts_witness :
    ((PyTimeRange.custom ⟨2019, 1, 1, 0, 0, 0⟩ ⟨2021, 1, 1, 0, 0, 0⟩).contains
        ⟨2019, 9, 2, 0, 0, 0⟩ = true ∧
      (PyTimeRange.custom ⟨2019, 1, 1, 0, 0, 0⟩ ⟨2021, 1, 1, 0, 0, 0⟩).contains
        (nextDay ⟨2019, 9, 2, 0, 0, 0⟩) = true ∧
      (dictLookup
        (mkDailyCountHistory [(⟨2019, 9, 2, 0, 0, 0⟩, 5)]).day_to_count
        ⟨2019, 9, 2, 0, 0, 0⟩).isSome = true) ∧
    (∃ l, extract_relevant_facts
        (mkDailyCountHistory [(⟨2019, 9, 2, 0, 0, 0⟩, 5)])
        (PyTimeRange.custom ⟨2019, 1, 1, 0, 0, 0⟩ ⟨2021, 1, 1, 0, 0, 0⟩)
        ⟨2019, 9, 2, 0, 0, 0⟩ = Except.ok l ∧
      l.map RelevantFact.kind =
        [.historicalTotal, .yearDayOfWeekRank, .historicalDayOfWeekRank,
          .dayOfYearRankOfTotal, .dayOfMonthRankOfTotal, .monthTotal] ∧
      ∀ f ∈ l, f.priority = 0) :=
  ⟨by decide, (extract_relevant_facts_spec _ _ _).2 (by decide)⟩

/-! ## Claim C10: ingestion pads with 2019-09-01 and drops the last pair -/

theorem check_answer_nil_false : (check_answer []).1 = false := by decide

/-- C10: for every answer accepted by `_check_answer` whose remaining pairs
parse, the daily history is built from exactly the padding pair
(2019-09-01 ↦ 0) followed by the parsed answer *minus its final pair*: the
history contains the padding entry Day(2019-09-01) ↦ 0 — an extra,
identity-distinct dict entry that `_pad_answer` prepended and that was not
among the answer's pairs — and the answer's final (date, count) pair is
omitted entirely. -/
theorem ingestion_pads_and_drops_last (ans : List (List String))
    (rest : List (Instant × ℤ))
    (hacc : (check_answer ans).1 = true)
    (hrest : ans.dropLast.mapM format_pair = Except.ok rest) :
    format_answer ans = Except.ok
      (mkDailyCountHistory ((⟨2019, 9, 1, 0, 0, 0⟩, 0) :: rest)) ∧
    ((⟨2019, 9, 1, 0, 0, 0⟩ : Instant), (0 : ℤ)) ∈
      (mkDailyCountHistory
        ((⟨2019, 9, 1, 0, 0, 0⟩, 0) :: rest)).day_to_count := by
  have hne : ans ≠ [] := by
    intro he
    rw [he, check_answer_nil_false] at hacc
    cases hacc
  constructor
  · have hdrop : (pad_answer ans).dropLast =
        ["09/01/2019", "0"] :: ans.dropLast := by
      unfold pad_answer
      show (["09/01/2019", "0"] :: ans).dropLast = _
      exact List.dropLast_cons_of_ne_nil hne
    have hmap : ((pad_answer ans).dropLast).mapM format_pair =
        Except.ok ((⟨2019, 9, 1, 0, 0, 0⟩, (0 : ℤ)) :: rest) := by
      rw [hdrop, List.mapM_cons, hrest]
      rfl
    unfold format_answer
    rw [hacc]
    simp only [Bool.not_true, Bool.false_eq_true, if_false]
    rw [hmap]
    rfl
  · show ((⟨2019, 9, 1, 0, 0, 0⟩ : Instant), (0 : ℤ)) ∈
      (⟨2019, 9, 1, 0, 0, 0⟩, (0 : ℤ)) :: rest
    exact List.mem_cons_self _ _

/-- Witness for `ingestion_pads_and_drops_last` on a two-pair answer. -/
theorem ingestion_pads_witness :
    ((check_answer [["09/03/2019", "5"], ["09/04/2019", "3"]]).1 = true ∧
      [["09/03/2019", "5"], ["09/04/2019", "3"]].dropLast.mapM format_pair =
        Except.ok [(⟨2019, 9, 3, 0, 0, 0⟩, (5 : ℤ))]) ∧
    format_answer [["09/03/2019", "5"], ["09/04/2019", "3"]] = Except.ok
      (mkDailyCountHistory
        [(⟨2019, 9, 1, 0, 0, 0⟩, 0), (⟨2019, 9, 3, 0, 0, 0⟩, (5 : ℤ))]) :=
  ⟨⟨by decide, by rfl⟩,
    (ingestion_pads_and_drops_last _ _ (by decide) (by rfl)).1⟩

end App
